import Mathlib

/-!
Verification of the alpen-paesse scraping library
(`custom_components/alpen_paesse/alpen_paesse.py`).

Strings are modelled as `List Char`; Python text operations (`in`,
`strip`, `lower`, slicing) are embedded as explicit list functions.
The regular expressions used by the field extractors are embedded as
deterministic matchers that reproduce the backtracking behaviour of
Python `re.search` on those concrete patterns.  The HTML document is
modelled as a tree of element/text nodes mirroring the BeautifulSoup
operations the code uses (`find_all(text=True)`, `find('a')`,
`find_parent`, `get_text`).
-/

set_option linter.unusedVariables false
set_option linter.unnecessarySimpa false
set_option maxRecDepth 8192

abbrev Str := List Char

/-- Python whitespace test for `str.strip` (ASCII subset used by the page). -/
def pyWs (c : Char) : Bool := c = ' ' || c = '\t' || c = '\n' || c = '\r'

/-- Python `str.strip()`: drop whitespace from both ends. -/
def pyStrip (s : Str) : Str := ((s.dropWhile pyWs).reverse.dropWhile pyWs).reverse

/-- Python `str.lower()` (ASCII model, via `Char.toLower`). -/
def pyLowerStr (s : Str) : Str := s.map Char.toLower

/-- `strStarts needle hay`: `hay` begins with `needle`. -/
def strStarts : Str → Str → Bool
  | [], _ => true
  | _ :: _, [] => false
  | a :: as, b :: bs => a == b && strStarts as bs

/-- Python `needle in hay`: substring containment. -/
def pyIn (needle : Str) : Str → Bool
  | [] => needle.isEmpty
  | c :: t => strStarts needle (c :: t) || pyIn needle t

/-- Declarative substring relation: `needle` occurs contiguously in `hay`. -/
def SubStr (needle hay : Str) : Prop := ∃ l r, hay = l ++ needle ++ r

/-! ## Regular-expression matchers of the field extractors

`_extract_temperature` uses, via `re.search`:
  primary pattern  : `(-?\d+(?:\.\d+)?)°C`
  fallback pattern : `(-?\d+(?:\.\d+)?)\s*°?C?`
`re.search` scans candidate start positions left to right; at a given
position the engine matches each piece greedily with backtracking.  The
matchers below reproduce exactly that behaviour at one start position,
and `scan` reproduces the left-to-right search. -/

/-- One search step of `re.search`: try the matcher at every start
position (every suffix), left to right, returning the first success. -/
def scan (f : Str → Option Str) : Str → Option Str
  | [] => f []
  | c :: t =>
    match f (c :: t) with
    | some r => some r
    | none => scan f t

/-- Does the rest of the input begin with the literal `°C`? -/
def startsWithDeg (l : Str) : Bool := strStarts ("°C".data) l

/-- Match `\d+(?:\.\d+)?` followed by `°C` at the head of the input,
returning the captured numeric substring (group 1 minus the sign).
The second branch mirrors the regex backtracking that retries without
the optional fraction when `°C` fails after it (never reachable, since
the character after the integer digits is `.` there, not `°`). -/
def matchPrimNum (cs : Str) : Option Str :=
  let ds := cs.takeWhile Char.isDigit
  let rest := cs.dropWhile Char.isDigit
  if ds = [] then none
  else
    match rest with
    | '.' :: r2 =>
      let fs := r2.takeWhile Char.isDigit
      let r3 := r2.dropWhile Char.isDigit
      if fs ≠ [] && startsWithDeg r3 then some (ds ++ '.' :: fs)
      else if startsWithDeg rest then some ds
      else none
    | _ => if startsWithDeg rest then some ds else none

/-- Match the primary pattern `(-?\d+(?:\.\d+)?)°C` at the head of the
input (the optional sign, then the body). -/
def matchPrimaryAt (cs : Str) : Option Str :=
  match cs with
  | '-' :: t => (matchPrimNum t).map (fun n => '-' :: n)
  | t => matchPrimNum t

/-- Match the group of the fallback pattern `(-?\d+(?:\.\d+)?)\s*°?C?`
at the head of the input: the trailing pieces are all optional, so the
group is just the greedily matched number. -/
def matchFallbackNum (cs : Str) : Option Str :=
  let ds := cs.takeWhile Char.isDigit
  let rest := cs.dropWhile Char.isDigit
  if ds = [] then none
  else
    match rest with
    | '.' :: r2 =>
      let fs := r2.takeWhile Char.isDigit
      if fs ≠ [] then some (ds ++ '.' :: fs) else some ds
    | _ => some ds

/-- Fallback pattern with its optional sign. -/
def matchFallbackAt (cs : Str) : Option Str :=
  match cs with
  | '-' :: t => (matchFallbackNum t).map (fun n => '-' :: n)
  | t => matchFallbackNum t

/-- Value of a digit string (`Nat` accumulation as in `float` parsing). -/
def digitsVal (s : Str) : ℕ := s.foldl (fun a c => 10 * a + (c.toNat - 48)) 0

/-- Value of an unsigned numeric token `\d+(?:\.\d+)?` as an exact
rational (model of Python `float` on these token shapes). -/
def numValPos (t : Str) : ℚ :=
  let ds := t.takeWhile Char.isDigit
  let rest := t.dropWhile Char.isDigit
  match rest with
  | '.' :: fs => (digitsVal ds : ℚ) + (digitsVal (fs.takeWhile Char.isDigit) : ℚ) / ((10 : ℚ) ^ (fs.takeWhile Char.isDigit).length)
  | _ => (digitsVal ds : ℚ)

/-- Value of a signed numeric token `-?\d+(?:\.\d+)?`. -/
def numVal : Str → ℚ
  | '-' :: t => - numValPos t
  | t => numValPos t

/-! ## The timestamp pattern `\d{1,2}\.\d{1,2}\.\d{4},?\s+\d{1,2}:\d{2}` -/

/-- Match `\d{1,2}` followed by the literal separator `sep`, greedily
(two digits tried first, then one), returning the consumed characters
(including the separator) and the rest.  The one-digit retry needs the
second character to be the separator, which is impossible when the
two-digit attempt consumed it as a digit, so committing is faithful to
the regex backtracking. -/
def matchD12sep (sep : Char) : Str → Option (Str × Str)
  | a :: b :: c :: r =>
    if a.isDigit && b.isDigit && c = sep then some ([a, b, c], r)
    else if a.isDigit && b = sep then some ([a, b], c :: r)
    else none
  | [a, b] => if a.isDigit && b = sep then some ([a, b], []) else none
  | _ => none

/-- Match the optional comma `,?` (greedy; retrying without it can
never help, since the following `\s+` cannot match a comma). -/
def matchComma : Str → Str × Str
  | ',' :: rr => ([','], rr)
  | rr => ([], rr)

/-- Match exactly `k` digits (`\d{k}`). -/
def matchDigits (k : ℕ) (cs : Str) : Option (Str × Str) :=
  let ds := cs.take k
  if ds.length = k && ds.all Char.isDigit then some (ds, cs.drop k) else none

/-- Match the bare date pattern
`\d{1,2}\.\d{1,2}\.\d{4},?\s+\d{1,2}:\d{2}` at the head of the input,
returning the matched substring (= capture group 1 of the first
pattern of `_extract_update_time`). -/
def matchDateAt (cs : Str) : Option Str :=
  match matchD12sep '.' cs with
  | none => none
  | some (p1, r1) =>
    match matchD12sep '.' r1 with
    | none => none
    | some (p2, r2) =>
      match matchDigits 4 r2 with
      | none => none
      | some (p3, r3) =>
        let pcr := matchComma r3
        let wsp := pcr.2.takeWhile pyWs
        let r5 := pcr.2.dropWhile pyWs
        if wsp = [] then none
        else
          match matchD12sep ':' r5 with
          | none => none
          | some (p4, r6) =>
            match matchDigits 2 r6 with
            | none => none
            | some (p5, _) => some (p1 ++ p2 ++ p3 ++ pcr.1 ++ wsp ++ p4 ++ p5)

/-- Match `label` (a literal), then `\s*`, then the date pattern as a
capture group, at the head of the input; returns the group only, as
`match.group(1)` does. -/
def labeledAt (label : Str) (cs : Str) : Option Str :=
  if strStarts label cs then matchDateAt ((cs.drop label.length).dropWhile pyWs)
  else none

/-! ## The field extractors of `AlpenPasseScraper` -/

/-- `AlpenPasseScraper._extract_temperature`: first the primary pattern
`(-?\d+(?:\.\d+)?)°C`, then the fallback `(-?\d+(?:\.\d+)?)\s*°?C?`;
the guard `if not text` returns `None` on the empty string.  `float`
never fails on the captured groups, so the `except ValueError` arms
are dead and the captured group's value is returned directly. -/
def _extract_temperature (text : Str) : Option ℚ :=
  if text = [] then none
  else
    match scan matchPrimaryAt text with
    | some n => some (numVal n)
    | none =>
      match scan matchFallbackAt text with
      | some n => some (numVal n)
      | none => none

/-- `AlpenPasseScraper._extract_update_time`: tries, in order, the bare
date pattern, then the same pattern behind the literal labels
`Updated on:` and `Aktualisiert am:`; returns `match.group(1).strip()`
of the first pattern that matches. -/
def _extract_update_time (text : Str) : Option Str :=
  if text = [] then none
  else
    match scan matchDateAt text with
    | some d => some (pyStrip d)
    | none =>
      match scan (labeledAt ("Updated on:".data)) text with
      | some d => some (pyStrip d)
      | none =>
        match scan (labeledAt ("Aktualisiert am:".data)) text with
        | some d => some (pyStrip d)
        | none => none

/-- Variant of `_extract_update_time` that uses only the first, bare
date pattern (the refinement target of the extensional-equality
claim). -/
def extractUpdateTimeBareOnly (text : Str) : Option Str :=
  if text = [] then none
  else (scan matchDateAt text).map pyStrip

/-! ## HTML document model

A parsed page is a tree of element and text nodes, mirroring the
BeautifulSoup operations the scraper uses. -/

inductive Node where
  | elem (name : Str) (attrs : List (Str × Str)) (children : List Node)
  | text (s : Str)

def nodeChildren : Node → List Node
  | .elem _ _ ch => ch
  | .text _ => []

def nodeName : Node → Str
  | .elem nm _ _ => nm
  | .text _ => []

/-- Attribute lookup (`tag.get(key)` / `tag[key]`). -/
def attrOf (n : Node) (k : Str) : Option Str :=
  match n with
  | .elem _ attrs _ => (attrs.find? (fun p => p.1 == k)).map (fun p => p.2)
  | .text _ => none

mutual
/-- All descendant text-node strings in document order
(`tag.find_all(text=True)` / `tag.find_all(string=True)`). -/
def nodeTexts : Node → List Str
  | .text s => [s]
  | .elem _ _ ch => forestTexts ch
def forestTexts : List Node → List Str
  | [] => []
  | c :: cs => nodeTexts c ++ forestTexts cs
end

/-- `tag.get_text()`: concatenation of all descendant strings. -/
def getText (n : Node) : Str := (nodeTexts n).flatten

/-- `tag.get_text(strip=True)`: each descendant string stripped, then
concatenated. -/
def getTextStrip (n : Node) : Str := ((nodeTexts n).map pyStrip).flatten

mutual
/-- First element named `t` in a forest, in preorder. -/
def findTagNode (t : Str) : Node → Option Node
  | .text _ => none
  | .elem nm attrs ch =>
    if nm == t then some (.elem nm attrs ch) else findTagForest t ch
def findTagForest (t : Str) : List Node → Option Node
  | [] => none
  | c :: cs =>
    match findTagNode t c with
    | some r => some r
    | none => findTagForest t cs
end

/-- `tag.find(t)`: first descendant element named `t` (excludes the
tag itself). -/
def findDesc (t : Str) (n : Node) : Option Node :=
  match n with
  | .text _ => none
  | .elem _ _ ch => findTagForest t ch

mutual
/-- All descendant `a` elements carrying an `href` attribute, each
paired with its chain of ancestors, innermost first
(`soup.find_all('a', href=True)` plus the `find_parent` chain). -/
def collectNode (anc : List Node) : Node → List (Node × List Node)
  | .text _ => []
  | .elem nm attrs ch =>
    (if nm == ("a".data) && ((attrs.find? (fun p => p.1 == ("href".data))).isSome)
     then [(Node.elem nm attrs ch, anc)] else [])
    ++ collectForest (Node.elem nm attrs ch :: anc) ch
def collectForest (anc : List Node) : List Node → List (Node × List Node)
  | [] => []
  | c :: cs => collectNode anc c ++ collectForest anc cs
end

/-! ## The pass record and its predicates -/

/-- The `AlpinePass` dataclass. -/
structure AlpinePass where
  name : Str
  route : Str
  status : Str
  temperature : Option ℚ := none
  last_update : Option Str := none
  url : Str := []
  elevation : Option ℤ := none
  notes : Option Str := none
deriving DecidableEq, Repr

/-- `AlpinePass.is_open`: empty status is falsy; otherwise check the
keyword list against the lowercased status by substring containment. -/
def AlpinePass.is_open (p : AlpinePass) : Bool :=
  if p.status = [] then false
  else
    let status_lower := pyLowerStr p.status
    [("open".data), ("offen".data), ("befahrbar".data)].any (fun k => pyIn k status_lower)

/-- `AlpinePass.has_restrictions`: empty status is falsy; otherwise
check the (bilingual, `winter` listed twice as in the source) keyword
list against the lowercased status. -/
def AlpinePass.has_restrictions (p : AlpinePass) : Bool :=
  if p.status = [] then false
  else
    let status_lower := pyLowerStr p.status
    [("restriction".data), ("chain".data), ("winter".data), ("snow".data), ("closed".data),
     ("einschränkung".data), ("ketten".data), ("winter".data), ("schnee".data), ("gesperrt".data)].any
      (fun k => pyIn k status_lower)

/-! ## The scraper -/

def BASE_URL : Str := ("https://alpen-paesse.ch".data)

def MAIN_PAGE_DE : Str := ("https://alpen-paesse.ch/de/".data)

def MAIN_PAGE_EN : Str := ("https://alpen-paesse.ch/en/".data)

/-- Model of `urllib.parse.urljoin(BASE_URL, href)` for the href
shapes occurring against this base (an already-absolute URL is kept,
a root-relative path is appended to the scheme+authority base). -/
def urljoin (base href : Str) : Str :=
  if strStarts ("http".data) href then href else base ++ href

/-- Python exceptions surfaced by the constructor. -/
inductive PyError where
  | valueError (msg : Str)
deriving DecidableEq

/-- The mutable `requests.Session` internals carried by the instance
(cookie jar; headers are fixed at construction). -/
structure Session where
  cookies : List (Str × Str)
deriving DecidableEq

/-- The scraper instance state set up by `__init__`. -/
structure ScraperSt where
  language : Str
  timeout : ℕ
  session : Session
  main_url : Str
deriving DecidableEq

/-- `AlpenPasseScraper.__init__`: lowercases the language, raises
`ValueError` when the lowercased value is neither `en` nor `de`, and
selects the main URL by comparing the ORIGINAL (unlowered) argument
with `"en"`.  No fetch happens here: the result is a pure value. -/
def AlpenPasseScraper_init (language : Str) (timeout : ℕ) : Except PyError ScraperSt :=
  let lang := pyLowerStr language
  if lang ≠ ("en".data) ∧ lang ≠ ("de".data) then
    .error (.valueError ("Language must be en or de".data))
  else
    .ok { language := lang, timeout := timeout, session := ⟨[]⟩,
          main_url := if language = ("en".data) then MAIN_PAGE_EN else MAIN_PAGE_DE }

/-- Exceptions of the `requests.exceptions.RequestException` family
that `session.get` itself can raise. -/
inductive RequestException where
  | connError | timeoutError | tooManyRedirects
deriving DecidableEq

/-- A `requests.Response`: its status code and its body, the latter
already viewed as the parsed document tree (`BeautifulSoup` of the
content; HTML parsing itself is outside the embedding). -/
structure Response where
  status : ℕ
  content : Node

/-- What `session.get` produces: a response, or a raised
`RequestException`. -/
abbrev SessionGetResult := Except RequestException Response

/-- `AlpenPasseScraper._make_request`: `raise_for_status` raises
`HTTPError` (a `RequestException`) for status codes 400–599; every
`RequestException` — raised by `get` or by `raise_for_status` — is
caught, logged, and turned into `None`. -/
def _make_request (res : SessionGetResult) : Option Response :=
  match res with
  | .error _ => none
  | .ok r => if 400 ≤ r.status ∧ r.status < 600 then none else some r

/-! ## `_parse_pass_section` -/

def statusKeywords : List Str :=
  [("open".data), ("offen".data), ("closed".data), ("gesperrt".data),
   ("befahrbar".data), ("restriction".data)]

def notesKeywords : List Str :=
  [("winter".data), ("snow".data), ("chain".data), ("restriction".data), ("obligatory".data),
   ("winter".data), ("schnee".data), ("ketten".data), ("einschränkung".data), ("obligatorisch".data)]

/-- The notes truncation of `_parse_pass_section`:
`text_clean[:200] + "..." if len(text_clean) > 200 else text_clean`. -/
def truncNotes (tc : Str) : Str :=
  if 200 < tc.length then tc.take 200 ++ ("...".data) else tc

/-- Qualifying test of the notes loop: a bilingual keyword occurs in
the lowercased stripped text and the stripped text is longer than 20
characters. -/
def notesQual (t : Str) : Bool :=
  notesKeywords.any (fun k => pyIn k (pyLowerStr (pyStrip t))) && decide (20 < (pyStrip t).length)

/-- `AlpenPasseScraper._parse_pass_section`.  `if not name_link` fires
only when `find('a')` returned `None`: bs4 tags are truthy regardless
of contents, so even a childless first link is parsed (its stripped
text, hence the record name, being empty).  Each field takes the first
qualifying text node; the `try/except` wrapper never fires in the
model because every operation is total. -/
def _parse_pass_section (sec : Node) : Option AlpinePass :=
  match findDesc ("a".data) sec with
  | none => none
  | some name_link =>
      let name := getTextStrip name_link
      let href := (attrOf name_link ("href".data)).getD []
      let pass_url := if href.isEmpty then [] else urljoin BASE_URL href
      let texts := nodeTexts sec
      let route_text :=
        match texts.find? (fun t => pyIn (" - ".data) (pyStrip t) && decide ((pyStrip t).length < 100)) with
        | some t => pyStrip t
        | none => []
      let status :=
        match texts.find? (fun t => statusKeywords.any (fun k => pyIn k (pyLowerStr (pyStrip t)))) with
        | some t => pyStrip t
        | none => ("Unknown".data)
      let temperature :=
        match texts.find? (fun t => (_extract_temperature t).isSome) with
        | some t => _extract_temperature t
        | none => none
      let last_update :=
        match texts.find? (fun t => !((_extract_update_time t).getD []).isEmpty) with
        | some t => _extract_update_time t
        | none => none
      let notes :=
        match texts.find? notesQual with
        | some t => truncNotes (pyStrip t)
        | none => []
      some { name := name, route := route_text, status := status,
             temperature := temperature, last_update := last_update,
             url := pass_url, elevation := none,
             notes := if notes.isEmpty then none else some notes }

/-! ## `get_all_passes` -/

def qualifierKeywords : List Str :=
  [("open".data), ("offen".data), ("updated".data), ("aktualisiert".data)]

/-- The ancestor test of the walk: the section text contains `°C` and
a bilingual status-ish keyword (checked on the lowercased text). -/
def sectionQualifies (sec : Node) : Bool :=
  let t := getText sec
  pyIn ("°C".data) t && qualifierKeywords.any (fun k => pyIn k (pyLowerStr t))

/-- The `while` walk up the `find_parent` chain for one link: stops at
(before) the `body` element; on a qualifying section whose parsed
record has a fresh name, appends it and breaks; otherwise keeps
walking (also when the record's name is already processed, or the
parse returned `None`). -/
def processAncestors : List Node → List AlpinePass → List Str → List AlpinePass × List Str
  | [], passes, processed => (passes, processed)
  | sec :: rest, passes, processed =>
    if nodeName sec == ("body".data) then (passes, processed)
    else if sectionQualifies sec then
      match _parse_pass_section sec with
      | some p =>
        if processed.contains p.name then processAncestors rest passes processed
        else (passes ++ [p], processed ++ [p.name])
      | none => processAncestors rest passes processed
    else processAncestors rest passes processed

/-- The `for link in pass_links` loop: filters on a non-empty href
containing `/alpenpaesse/` that is not in `processed_names` (the set
of already-processed NAMES, as in the source), then walks the ancestor
chain. -/
def processLinks : List (Node × List Node) → List AlpinePass → List Str → List AlpinePass
  | [], passes, _ => passes
  | (link, anc) :: rest, passes, processed =>
    let href := (attrOf link ("href".data)).getD []
    if !href.isEmpty && pyIn ("/alpenpaesse/".data) href && !(processed.contains href) then
      let st := processAncestors anc passes processed
      processLinks rest st.1 st.2
    else processLinks rest passes processed

/-- The parsing part of `get_all_passes`, on an already fetched and
parsed page: enumerate the pass links of the document with their
ancestor chains and run the loop with empty initial state. -/
def getAllPassesParse (soup : Node) : List AlpinePass :=
  match soup with
  | .text _ => []
  | .elem _ _ ch => processLinks (collectForest [soup] ch) [] []

/-- `AlpenPasseScraper.get_all_passes`: `_make_request`, the `if not
response` truthiness guard (a surviving response always has a status
outside 400–599, so the second test repeats `response.ok`), then the
parse; parse errors are caught and yield `[]` (the model's parse is
total). -/
def get_all_passes (res : SessionGetResult) : List AlpinePass :=
  match _make_request res with
  | none => []
  | some r =>
    if 400 ≤ r.status ∧ r.status < 600 then []
    else getAllPassesParse r.content

/-- The lookup loop of `get_pass_details` over a fetched collection:
first record whose lowercased name CONTAINS the lowercased query. -/
def lookupLoop (passes : List AlpinePass) (pass_name : Str) : Option AlpinePass :=
  passes.find? (fun p => pyIn (pyLowerStr pass_name) (pyLowerStr p.name))

/-- `AlpenPasseScraper.get_pass_details`: fetch all passes, then the
lookup loop. -/
def get_pass_details (res : SessionGetResult) (pass_name : Str) : Option AlpinePass :=
  lookupLoop (get_all_passes res) pass_name

/-- `get_all_passes` as invoked on a live instance: the fetch reads
the instance's `main_url` and session, may mutate the session
(cookies), and the parse consumes only the returned document.  The
instance state is threaded explicitly; nothing else on the instance
is written. -/
def getAllPassesWithSession (fetch : Str → Session → SessionGetResult × Session)
    (st : ScraperSt) : List AlpinePass × ScraperSt :=
  let fr := fetch st.main_url st.session
  (get_all_passes fr.1, { st with session := fr.2 })

/-! ## Concrete documents used by witnesses and counterexamples -/

/-- A pass link whose only child is a whitespace text node, so its
stripped text is empty. -/
def c2Link : Node := .elem ("a".data) [(("href".data), ("/alpenpaesse/x".data))] [.text (" ".data)]

def c2Div : Node := .elem ("div".data) [] [c2Link, .text (" 5°C open".data)]

def c2Page : Node := .elem ("html".data) [] [.elem ("body".data) [] [c2Div]]

def c4Link : Node := .elem ("a".data) [(("href".data), ("/alpenpaesse/gotthardpass".data))] [.text ("Gotthardpass".data)]

def c4Div : Node := .elem ("div".data) [] [c4Link, .text ("5°C open".data)]

def c4Page : Node := .elem ("html".data) [] [.elem ("body".data) [] [c4Div]]

def c4Res : SessionGetResult := .ok ⟨200, c4Page⟩

def c7Note : Str := ("winter ".data) ++ List.replicate 200 'a'

def c7Link : Node := .elem ("a".data) [(("href".data), ("/alpenpaesse/x".data))] [.text ("Pass X".data)]

def c7Sec : Node := .elem ("div".data) [] [c7Link, .text (" 5°C open".data), .text c7Note]

def openPassRec : AlpinePass :=
  { name := ("Gotthardpass".data), route := [], status := ("Open, no restrictions".data) }

def closedPassRec : AlpinePass :=
  { name := ("Gotthardpass".data), route := [], status := ("Closed - Winter, chains required".data) }

def cFetch : Str → Session → SessionGetResult × Session :=
  fun _ s => (Except.ok ⟨200, c4Page⟩, s)

def cScraperSt : ScraperSt :=
  { language := ("en".data), timeout := 10, session := ⟨[]⟩, main_url := MAIN_PAGE_EN }

/-- A pass link with no children at all: still truthy in bs4, with
empty text. -/
def c2ChildlessLink : Node :=
  .elem ("a".data) [(("href".data), ("/alpenpaesse/x".data))] []

def c2EmptyLinkSec : Node := .elem ("div".data) [] [c2ChildlessLink]

/-- A block with no link element at all. -/
def c2NoLinkSec : Node := .elem ("div".data) [] [.text ("x".data)]

def c4Rec : AlpinePass :=
  { name := ("Gotthardpass".data), route := [], status := ("5°C open".data),
    temperature := some (numVal ("5".data)), last_update := none,
    url := BASE_URL ++ ("/alpenpaesse/gotthardpass".data), elevation := none, notes := none }

def c7SmallLink : Node := .elem ("a".data) [] [.text ("P".data)]

def c7SmallSec : Node :=
  .elem ("div".data) [] [c7SmallLink, .text ("winter conditions ahead".data)]

def c7SmallRec : AlpinePass :=
  { name := ("P".data), route := [], status := ("Unknown".data),
    temperature := none, last_update := none, url := [], elevation := none,
    notes := some ("winter conditions ahead".data) }

def c7Page : Node := .elem ("html".data) [] [.elem ("body".data) [] [c7Sec]]

/-! ## The declarative temperature-substring grammar (spec side)

A substring "shaped as an optional minus sign, digits, an optional
decimal fraction, immediately followed by °C". -/

def sgn (m : Bool) : Str := if m then ['-'] else []

def TempShape (s : Str) : Prop :=
  ∃ (m : Bool) (ds fd : Str),
    ds ≠ [] ∧ (∀ c ∈ ds, c.isDigit = true) ∧
    ((fd = [] ∧ s = sgn m ++ ds ++ ("°C".data)) ∨
     (fd ≠ [] ∧ (∀ c ∈ fd, c.isDigit = true) ∧ s = sgn m ++ ds ++ '.' :: (fd ++ ("°C".data))))

theorem strStarts_iff (n h : Str) : strStarts n h = true ↔ ∃ r, h = n ++ r := by
  induction n generalizing h with
  | nil => simp [strStarts]
  | cons a as ih =>
    cases h with
    | nil => simp [strStarts]
    | cons b bs =>
      simp only [strStarts, Bool.and_eq_true, beq_iff_eq, ih]
      constructor
      · rintro ⟨rfl, r, rfl⟩; exact ⟨r, rfl⟩
      · rintro ⟨r, hr⟩
        injection hr with h1 h2
        exact ⟨h1.symm, r, h2⟩

theorem pyIn_iff (n h : Str) : pyIn n h = true ↔ SubStr n h := by
  induction h with
  | nil =>
    simp only [pyIn, List.isEmpty_iff, SubStr]
    constructor
    · rintro rfl; exact ⟨[], [], rfl⟩
    · rintro ⟨l, r, hr⟩
      rcases List.append_eq_nil.mp (List.append_eq_nil.mp hr.symm).1 with ⟨-, h2⟩
      exact h2
  | cons c t ih =>
    simp only [pyIn, Bool.or_eq_true, strStarts_iff, ih, SubStr]
    constructor
    · rintro (⟨r, hr⟩ | ⟨l, r, hr⟩)
      · exact ⟨[], r, by simp [hr]⟩
      · exact ⟨c :: l, r, by simp [hr]⟩
    · rintro ⟨l, r, hr⟩
      cases l with
      | nil => exact Or.inl ⟨r, by simpa using hr⟩
      | cons x xs =>
        injection hr with h1 h2
        exact Or.inr ⟨xs, r, h2⟩

theorem takeWhile_append_eq {p : Char → Bool} :
    ∀ (l : Str) (c : Char) (t : Str), (∀ x ∈ l, p x = true) → p c = false →
      (l ++ c :: t).takeWhile p = l ∧ (l ++ c :: t).dropWhile p = c :: t := by
  intro l
  induction l with
  | nil =>
    intro c t _ hc
    simp [List.takeWhile, List.dropWhile, hc]
  | cons a as ih =>
    intro c t hl hc
    have ha : p a = true := hl a (List.mem_cons_self a as)
    have := ih c t (fun x hx => hl x (List.mem_cons_of_mem a hx)) hc
    simp [List.takeWhile, List.dropWhile, ha, this.1, this.2]

theorem dropWhile_eq_drop (p : Char → Bool) :
    ∀ l : Str, l.dropWhile p = l.drop (l.takeWhile p).length := by
  intro l
  induction l with
  | nil => rfl
  | cons a as ih =>
    by_cases h : p a
    · simp [List.dropWhile, List.takeWhile, h, ih]
    · simp [List.dropWhile, List.takeWhile, h]

theorem take_append_left (l m : Str) : (l ++ m).take l.length = l := by
  simp [List.take_append_of_le_length (Nat.le_refl l.length)]

/-! ### Generic properties of `scan` (the `re.search` position loop) -/

theorem scan_eq_none_iff (f : Str → Option Str) (l : Str) :
    scan f l = none ↔ ∀ n, f (l.drop n) = none := by
  induction l with
  | nil =>
    simp only [scan]
    constructor
    · intro h n; simpa using h
    · intro h; simpa using h 0
  | cons c t ih =>
    simp only [scan]
    constructor
    · intro h n
      cases hf : f (c :: t) with
      | some r => rw [hf] at h; exact absurd h (by simp)
      | none =>
        rw [hf] at h
        cases n with
        | zero => simpa using hf
        | succ m => exact (ih.mp h) m
    · intro h
      have h0 : f (c :: t) = none := by simpa using h 0
      rw [h0]
      exact ih.mpr (fun n => by simpa using h (n + 1))

theorem scan_eq_some_of_first (f : Str → Option Str) (l : Str) (i : ℕ) (r : Str)
    (hi : f (l.drop i) = some r) (hmin : ∀ j, j < i → f (l.drop j) = none) :
    scan f l = some r := by
  induction i generalizing l with
  | zero =>
    cases l with
    | nil => simpa [scan] using hi
    | cons c t => simp only [List.drop_zero] at hi; simp [scan, hi]
  | succ n ih =>
    have h0 : f l = none := by simpa using hmin 0 (Nat.succ_pos n)
    cases l with
    | nil =>
      simp only [List.drop_nil] at hi
      simpa [scan, hi] using h0.symm.trans hi
    | cons c t =>
      simp only [scan, show f (c :: t) = none from h0]
      exact ih t (by simpa using hi) (fun j hj => by simpa using hmin (j + 1) (Nat.succ_lt_succ hj))

theorem scan_eq_some_exists (f : Str → Option Str) (l : Str) (r : Str)
    (h : scan f l = some r) : ∃ n, f (l.drop n) = some r := by
  induction l with
  | nil => exact ⟨0, by simpa [scan] using h⟩
  | cons c t ih =>
    simp only [scan] at h
    cases hf : f (c :: t) with
    | some x => rw [hf] at h; exact ⟨0, by simpa [hf] using h⟩
    | none =>
      rw [hf] at h
      obtain ⟨n, hn⟩ := ih h
      exact ⟨n + 1, by simpa using hn⟩

/-- C3: counterexample — for a record whose status text is
`Open, no restrictions` the code's `has_restrictions` is NOT false:
the keyword `restriction` occurs as a substring of `no restrictions`. -/
theorem C3_counterexample : ¬ AlpinePass.has_restrictions openPassRec = false := by decide

/-- C3 (amended): for status `Open, no restrictions` both `is_open`
and `has_restrictions` are true (the latter because `restriction` is a
substring of `no restrictions`); for `Closed - Winter, chains
required`, `is_open` is false and `has_restrictions` is true. -/
theorem C3_predicates :
    AlpinePass.is_open openPassRec = true ∧
    AlpinePass.has_restrictions openPassRec = true ∧
    AlpinePass.is_open closedPassRec = false ∧
    AlpinePass.has_restrictions closedPassRec = true := by decide

/-- C6 (amended): a raised `RequestException` (connection error,
timeout, redirect loop) or a response status in 400..599 (the
`raise_for_status` range) makes `get_all_passes` return the empty
list; the model returns a plain list, so no exception crosses the
fetch boundary. -/
theorem C6_transport_failure (res : SessionGetResult)
    (h : (∃ e, res = Except.error e) ∨
         (∃ r, res = Except.ok r ∧ 400 ≤ r.status ∧ r.status < 600)) :
    get_all_passes res = [] := by
  rcases h with ⟨e, rfl⟩ | ⟨r, rfl, h1, h2⟩
  · rfl
  · simp [get_all_passes, _make_request, h1, h2]

theorem C6_witness :
    get_all_passes (Except.error RequestException.timeoutError) = [] ∧
    get_all_passes (Except.ok ⟨500, c4Page⟩) = [] :=
  ⟨C6_transport_failure _ (Or.inl ⟨_, rfl⟩),
   C6_transport_failure _ (Or.inr ⟨_, rfl, by norm_num, by norm_num⟩)⟩

/-- C6: counterexample — a 301 response (non-2xx but below the
`raise_for_status` range) is not treated as a failure: its body is
parsed and `get_all_passes` returns a non-empty list. -/
theorem C6_counterexample :
    (301 < 200 ∨ 299 < 301) ∧ get_all_passes (Except.ok ⟨301, c4Page⟩) ≠ [] := by
  exact ⟨by norm_num, by decide⟩

/-- C8 (amended): the constructor raises `ValueError` exactly when the
LOWERCASED language is neither `en` nor `de`; the check is pure and
happens before any fetch (the constructor takes no transport). -/
theorem C8_language_validation (language : Str) (timeout : ℕ) :
    (∃ e, AlpenPasseScraper_init language timeout = Except.error e) ↔
      ¬(pyLowerStr language = ("en".data) ∨ pyLowerStr language = ("de".data)) := by
  unfold AlpenPasseScraper_init
  by_cases h : pyLowerStr language ≠ ("en".data) ∧ pyLowerStr language ≠ ("de".data)
  · rw [if_pos h]
    exact iff_of_true ⟨_, rfl⟩ (by push_neg; exact h)
  · rw [if_neg h]
    have h' : pyLowerStr language = ("en".data) ∨ pyLowerStr language = ("de".data) := by
      by_contra hc
      push_neg at hc
      exact h hc
    exact iff_of_false (fun ⟨e, he⟩ => Except.noConfusion he) (not_not.mpr h')

theorem C8_witness : ∃ e, AlpenPasseScraper_init ("fr".data) 10 = Except.error e :=
  (C8_language_validation ("fr".data) 10).mpr (by decide)

/-- C8: counterexample — `"EN"` is a language value other than `"en"`
or `"de"`, yet construction succeeds (the check runs on the lowercased
value), and the unlowered comparison even selects the German URL. -/
theorem C8_counterexample :
    (("EN".data) ≠ ("en".data) ∧ ("EN".data) ≠ ("de".data)) ∧
      AlpenPasseScraper_init ("EN".data) 10 =
        Except.ok { language := ("en".data), timeout := 10, session := ⟨[]⟩,
                    main_url := MAIN_PAGE_DE } :=
  ⟨by decide, rfl⟩

/-- C9: on one instance, two successive `get_all_passes` calls whose
transport yields the same result produce identical record lists: the
call reads only the (unchanged) `main_url` and the fetched document;
the only state written back is the session, which the parse never
reads. -/
theorem C9_deterministic (fetch : Str → Session → SessionGetResult × Session)
    (st : ScraperSt) (res : SessionGetResult)
    (h : ∀ sess, (fetch st.main_url sess).1 = res) :
    (getAllPassesWithSession fetch st).1 =
      (getAllPassesWithSession fetch (getAllPassesWithSession fetch st).2).1 := by
  have h2 : ∀ sess,
      (fetch (getAllPassesWithSession fetch st).2.main_url sess).1 = res :=
    fun sess => h sess
  simp only [getAllPassesWithSession] at h2 ⊢
  rw [h st.session, h2]

theorem C9_witness :
    (getAllPassesWithSession cFetch cScraperSt).1 =
      (getAllPassesWithSession cFetch (getAllPassesWithSession cFetch cScraperSt).2).1 :=
  C9_deterministic cFetch cScraperSt (Except.ok ⟨200, c4Page⟩) (fun _ => rfl)

/-- C2 (amended): `_parse_pass_section` discards a block exactly when
`find('a')` finds no link element at all (bs4 tags are truthy
regardless of contents, so `if not name_link` fires only on `None`);
whenever a first link exists — childless, whitespace-only, or with
real text — parsing succeeds and the record's name is the link's
stripped text, which may be empty, in which case the record is still
produced. -/
theorem C2_name_extraction (sec : Node) :
    (findDesc ("a".data) sec = none → _parse_pass_section sec = none) ∧
    (∀ link, findDesc ("a".data) sec = some link →
      ∃ p, _parse_pass_section sec = some p ∧ p.name = getTextStrip link) := by
  refine ⟨fun h => ?_, fun link h => ?_⟩
  · simp [_parse_pass_section, h]
  · simp only [_parse_pass_section, h]
    exact ⟨_, rfl, rfl⟩

theorem C2_witness :
    _parse_pass_section c2NoLinkSec = none ∧
    (∃ p, _parse_pass_section c2EmptyLinkSec = some p ∧
      p.name = getTextStrip c2ChildlessLink) ∧
    (∃ p, _parse_pass_section c2Div = some p ∧ p.name = getTextStrip c2Link) :=
  ⟨(C2_name_extraction c2NoLinkSec).1 rfl,
   (C2_name_extraction c2EmptyLinkSec).2 c2ChildlessLink rfl,
   (C2_name_extraction c2Div).2 c2Link rfl⟩

/-- C2: counterexample — in `c2Page` the qualifying block's first link
has a whitespace-only text child, so its stripped text is empty; the
block is NOT discarded: `get_all_passes` returns one record and its
name is the empty string. -/
theorem C2_counterexample :
    getTextStrip c2Link = [] ∧
    (get_all_passes (Except.ok ⟨200, c2Page⟩)).map AlpinePass.name = [[]] := by decide

/-- C4 (amended): the lookup is one-directional — it returns the first
fetched record whose lowercased name CONTAINS the lowercased query,
and absence exactly when no record's name contains the query; a record
whose name is merely contained in the query does not match. -/
theorem C4_lookup (res : SessionGetResult) (pass_name : Str) :
    (get_pass_details res pass_name = none ↔
      ∀ p ∈ get_all_passes res, ¬ SubStr (pyLowerStr pass_name) (pyLowerStr p.name)) ∧
    (∀ p, get_pass_details res pass_name = some p →
      SubStr (pyLowerStr pass_name) (pyLowerStr p.name) ∧
      ∃ l1 l2, get_all_passes res = l1 ++ p :: l2 ∧
        ∀ q ∈ l1, ¬ SubStr (pyLowerStr pass_name) (pyLowerStr q.name)) := by
  have key : ∀ q : AlpinePass,
      pyIn (pyLowerStr pass_name) (pyLowerStr q.name) = true ↔
        SubStr (pyLowerStr pass_name) (pyLowerStr q.name) :=
    fun q => pyIn_iff _ _
  constructor
  · rw [get_pass_details, lookupLoop, List.find?_eq_none]
    exact ⟨fun h p hp hsub => h p hp ((key p).mpr hsub),
           fun h p hp hpy => h p hp ((key p).mp hpy)⟩
  · intro p hp
    rw [get_pass_details, lookupLoop] at hp
    rcases List.find?_eq_some.mp hp with ⟨hpred, as, bs, hxs, hall⟩
    refine ⟨(key p).mp hpred, as, bs, hxs, fun q hq hsub => ?_⟩
    have h1 := hall q hq
    rw [(key q).mpr hsub] at h1
    exact absurd h1 (by simp)

theorem C4_witness :
    SubStr (pyLowerStr ("gotthard".data)) (pyLowerStr c4Rec.name) ∧
    ∃ l1 l2, get_all_passes c4Res = l1 ++ c4Rec :: l2 ∧
      ∀ q ∈ l1, ¬ SubStr (pyLowerStr ("gotthard".data)) (pyLowerStr q.name) :=
  (C4_lookup c4Res ("gotthard".data)).2 c4Rec rfl

/-- C4: counterexample — the fetched collection holds exactly one
record, named `Gotthardpass`; that name IS contained (case-insensitively)
in the query `gotthardpass extra`, so the claimed either-direction
match would return it, but `get_pass_details` returns absence. -/
theorem C4_counterexample :
    pyIn (pyLowerStr ("Gotthardpass".data)) (pyLowerStr ("gotthardpass extra".data)) = true ∧
    (get_all_passes c4Res).map AlpinePass.name = [("Gotthardpass".data)] ∧
    get_pass_details c4Res ("gotthardpass extra".data) = none := by decide

/-- C7 (amended): whenever a parsed record carries notes, the notes
come from the first qualifying text node `t`; when `t`'s stripped text
exceeds 200 characters the stored value is its first 200 characters
plus `...` — ellipsis-terminated but 203 characters long, not at most
200; a qualifying text of at most 200 characters is stored
unmodified. -/
theorem C7_notes (sec : Node) (p : AlpinePass) (s : Str)
    (hp : _parse_pass_section sec = some p) (hs : p.notes = some s) :
    ∃ t ∈ nodeTexts sec, notesQual t = true ∧ s = truncNotes (pyStrip t) ∧
      ((200 < (pyStrip t).length ∧ s.length = 203 ∧ ∃ l, s = l ++ ("...".data)) ∨
       ((pyStrip t).length ≤ 200 ∧ s = pyStrip t)) := by
  unfold _parse_pass_section at hp
  cases hfind : findDesc ("a".data) sec with
  | none => rw [hfind] at hp; exact absurd hp (by simp)
  | some link =>
    rw [hfind] at hp
    dsimp only at hp
    have hrec := Option.some.inj hp
    rw [← hrec] at hs
    dsimp only at hs
    cases hfn : (nodeTexts sec).find? notesQual with
    | none =>
      rw [hfn] at hs
      exact absurd hs (by simp)
    | some t =>
      rw [hfn] at hs
      have hqual : notesQual t = true := List.find?_some hfn
      have hmem : t ∈ nodeTexts sec := List.mem_of_find?_eq_some hfn
      by_cases hie : (truncNotes (pyStrip t)).isEmpty = true
      · rw [if_pos hie] at hs
        exact absurd hs (by simp)
      · rw [if_neg hie] at hs
        have hval : truncNotes (pyStrip t) = s := Option.some.inj hs
        refine ⟨t, hmem, hqual, hval.symm, ?_⟩
        by_cases hlen : 200 < (pyStrip t).length
        · refine Or.inl ⟨hlen, ?_, ?_⟩
          · rw [← hval]
            unfold truncNotes
            rw [if_pos hlen]
            simp only [List.length_append, List.length_take, List.length_cons,
              List.length_nil]
            omega
          · refine ⟨(pyStrip t).take 200, ?_⟩
            rw [← hval]
            unfold truncNotes
            rw [if_pos hlen]
        · refine Or.inr ⟨by omega, ?_⟩
          rw [← hval]
          unfold truncNotes
          rw [if_neg hlen]

theorem C7_witness :
    ∃ t ∈ nodeTexts c7SmallSec, notesQual t = true ∧
      ("winter conditions ahead".data) = truncNotes (pyStrip t) ∧
      ((200 < (pyStrip t).length ∧ ("winter conditions ahead".data).length = 203 ∧
          ∃ l, ("winter conditions ahead".data) = l ++ ("...".data)) ∨
       ((pyStrip t).length ≤ 200 ∧ ("winter conditions ahead".data) = pyStrip t)) :=
  C7_notes c7SmallSec c7SmallRec ("winter conditions ahead".data) (by decide) rfl

/-- C7: counterexample — the qualifying notes text of `c7Sec` strips
to 207 characters, and the emitted record's stored notes string is 203
characters long, exceeding the claimed 200-character bound. -/
theorem C7_counterexample :
    200 < (pyStrip c7Note).length ∧
    (get_all_passes (Except.ok ⟨200, c7Page⟩)).map (fun p => p.notes.map List.length) =
      [some 203] := by decide

theorem contains_iff_mem (l : List Str) (a : Str) : l.contains a = true ↔ a ∈ l := by
  simp [List.contains, List.elem_iff]

theorem processAncestors_mono (chain : List Node) :
    ∀ passes processed, ∃ suffix,
      (processAncestors chain passes processed).1 = passes ++ suffix := by
  induction chain with
  | nil => intro passes processed; exact ⟨[], by simp [processAncestors]⟩
  | cons sec rest ih =>
    intro passes processed
    unfold processAncestors
    by_cases h1 : (nodeName sec == ("body".data)) = true
    · rw [if_pos h1]; exact ⟨[], by simp⟩
    · rw [if_neg h1]
      by_cases h2 : sectionQualifies sec = true
      · rw [if_pos h2]
        cases hp : _parse_pass_section sec with
        | none => exact ih passes processed
        | some p =>
          dsimp only
          by_cases h3 : (processed.contains p.name) = true
          · rw [if_pos h3]; exact ih passes processed
          · rw [if_neg h3]; exact ⟨[p], rfl⟩
      · rw [if_neg h2]; exact ih passes processed

theorem processLinks_mono : ∀ (links : List (Node × List Node)) passes processed,
    ∃ suffix, processLinks links passes processed = passes ++ suffix := by
  intro links
  induction links with
  | nil => intro passes processed; exact ⟨[], by simp [processLinks]⟩
  | cons hd rest ih =>
    obtain ⟨link, anc⟩ := hd
    intro passes processed
    unfold processLinks
    dsimp only
    by_cases hc : (!((attrOf link ("href".data)).getD []).isEmpty &&
        pyIn ("/alpenpaesse/".data) ((attrOf link ("href".data)).getD []) &&
        !(processed.contains ((attrOf link ("href".data)).getD []))) = true
    · rw [if_pos hc]
      obtain ⟨s1, hs1⟩ := processAncestors_mono anc passes processed
      obtain ⟨s2, hs2⟩ :=
        ih (processAncestors anc passes processed).1 (processAncestors anc passes processed).2
      exact ⟨s1 ++ s2, by rw [hs2, hs1, List.append_assoc]⟩
    · rw [if_neg hc]; exact ih passes processed

theorem processAncestors_inv (chain : List Node) :
    ∀ passes processed,
      ((passes.map AlpinePass.name).Nodup ∧ ∀ p ∈ passes, p.name ∈ processed) →
      (((processAncestors chain passes processed).1.map AlpinePass.name).Nodup ∧
        ∀ p ∈ (processAncestors chain passes processed).1,
          p.name ∈ (processAncestors chain passes processed).2) := by
  induction chain with
  | nil => intro passes processed h; simpa [processAncestors] using h
  | cons sec rest ih =>
    intro passes processed h
    unfold processAncestors
    by_cases h1 : (nodeName sec == ("body".data)) = true
    · rw [if_pos h1]; exact h
    · rw [if_neg h1]
      by_cases h2 : sectionQualifies sec = true
      · rw [if_pos h2]
        cases hp : _parse_pass_section sec with
        | none => exact ih passes processed h
        | some p =>
          dsimp only
          by_cases h3 : (processed.contains p.name) = true
          · rw [if_pos h3]; exact ih passes processed h
          · rw [if_neg h3]
            have hnotin : p.name ∉ processed :=
              fun hmem => h3 ((contains_iff_mem processed p.name).mpr hmem)
            constructor
            · rw [List.map_append]
              refine List.Nodup.append h.1 (by simp) ?_
              intro a ha hb
              simp only [List.map_cons, List.map_nil, List.mem_singleton] at hb
              rcases List.mem_map.mp ha with ⟨q, hq, rfl⟩
              exact hnotin (hb ▸ h.2 q hq)
            · intro q hq
              rcases List.mem_append.mp hq with hq | hq
              · exact List.mem_append.mpr (Or.inl (h.2 q hq))
              · simp only [List.mem_singleton] at hq
                subst hq
                exact List.mem_append.mpr (Or.inr (by simp))
      · rw [if_neg h2]; exact ih passes processed h

theorem processLinks_nodup : ∀ (links : List (Node × List Node)) passes processed,
    ((passes.map AlpinePass.name).Nodup ∧ ∀ p ∈ passes, p.name ∈ processed) →
    ((processLinks links passes processed).map AlpinePass.name).Nodup := by
  intro links
  induction links with
  | nil => intro passes processed h; simpa [processLinks] using h.1
  | cons hd rest ih =>
    obtain ⟨link, anc⟩ := hd
    intro passes processed h
    unfold processLinks
    dsimp only
    by_cases hc : (!((attrOf link ("href".data)).getD []).isEmpty &&
        pyIn ("/alpenpaesse/".data) ((attrOf link ("href".data)).getD []) &&
        !(processed.contains ((attrOf link ("href".data)).getD []))) = true
    · rw [if_pos hc]
      exact ih _ _ (processAncestors_inv anc passes processed h)
    · rw [if_neg hc]; exact ih passes processed h

/-- C5: within one fetch the returned records carry pairwise distinct
names (deduplication by case-sensitive exact name: once a name is
recorded, no later record with that name is appended — first match
wins), and the loop only ever appends to the collection, so accepted
records appear in the order they were encountered. -/
theorem C5_dedup (soup : Node) :
    ((getAllPassesParse soup).map AlpinePass.name).Nodup ∧
    (∀ links passes processed, ∃ suffix,
      processLinks links passes processed = passes ++ suffix) := by
  constructor
  · unfold getAllPassesParse
    cases soup with
    | text s => simp
    | elem nm attrs ch =>
      exact processLinks_nodup _ [] [] ⟨by simp, by simp⟩
  · exact processLinks_mono

theorem TempShape_deg_mem (s : Str) (hs : TempShape s) : '°' ∈ s := by
  obtain ⟨m, ds, fd, h1, h2, hcase⟩ := hs
  rcases hcase with ⟨h3, rfl⟩ | ⟨h3, h4, rfl⟩ <;> simp [String.data]

theorem TempShape_ne_nil (s : Str) (hs : TempShape s) : s ≠ [] :=
  fun hnil => absurd (TempShape_deg_mem s hs) (by simp [hnil])

theorem matchPrimNum_nofrac (ds r : Str) (hds : ds ≠ [])
    (hdig : ∀ c ∈ ds, c.isDigit = true) :
    matchPrimNum (ds ++ '°' :: 'C' :: r) = some ds := by
  have h := takeWhile_append_eq (p := Char.isDigit) ds '°' ('C' :: r) hdig (by decide)
  have hsw : startsWithDeg ('°' :: 'C' :: r) = true := by simp [startsWithDeg, strStarts]
  simp only [matchPrimNum, h.1, h.2]
  rw [if_neg hds]
  simp [hsw]

theorem matchPrimNum_frac (ds fd r : Str) (hds : ds ≠ [])
    (hdig : ∀ c ∈ ds, c.isDigit = true) (hfd : fd ≠ [])
    (hfdig : ∀ c ∈ fd, c.isDigit = true) :
    matchPrimNum (ds ++ '.' :: (fd ++ '°' :: 'C' :: r)) = some (ds ++ '.' :: fd) := by
  have h1 := takeWhile_append_eq (p := Char.isDigit) ds '.' (fd ++ '°' :: 'C' :: r) hdig (by decide)
  have h2 := takeWhile_append_eq (p := Char.isDigit) fd '°' ('C' :: r) hfdig (by decide)
  have hsw : startsWithDeg ('°' :: 'C' :: r) = true := by simp [startsWithDeg, strStarts]
  simp only [matchPrimNum, h1.1, h1.2]
  rw [if_neg hds]
  simp only [h2.1, h2.2]
  simp [hfd, hsw]

theorem matchPrimaryAt_cons_not_minus (d : Char) (t : Str) (hd : d ≠ '-') :
    matchPrimaryAt (d :: t) = matchPrimNum (d :: t) := by
  unfold matchPrimaryAt
  split
  · next t' heq => injection heq with h1 h2; exact absurd h1 hd
  · rfl

theorem matchPrimaryAt_of_shape (s r : Str) (hs : TempShape s) :
    matchPrimaryAt (s ++ r) = some (s.take (s.length - 2)) := by
  obtain ⟨m, ds, fd, hds, hdig, hcase⟩ := hs
  obtain ⟨d, dt, rfl⟩ : ∃ d dt, ds = d :: dt := by
    cases ds with
    | nil => exact absurd rfl hds
    | cons d dt => exact ⟨d, dt, rfl⟩
  have hd : d.isDigit = true := hdig d (by simp)
  have hdm : d ≠ '-' := fun hc => by rw [hc] at hd; exact absurd hd (by decide)
  rcases hcase with ⟨hfd, rfl⟩ | ⟨hfd, hfdig, rfl⟩
  · cases m with
    | true =>
      have harr : (sgn true ++ (d :: dt) ++ ("°C".data)) ++ r =
          '-' :: ((d :: dt) ++ '°' :: 'C' :: r) := by
        simp [sgn, String.data]
      rw [harr]
      show (matchPrimNum ((d :: dt) ++ '°' :: 'C' :: r)).map (fun n => '-' :: n) = _
      rw [matchPrimNum_nofrac (d :: dt) r hds hdig]
      have hsplit : sgn true ++ (d :: dt) ++ ("°C".data) =
          ('-' :: d :: dt) ++ ("°C".data) := by simp [sgn]
      rw [hsplit]
      have hlen : (('-' :: d :: dt) ++ ("°C".data)).length - 2 = ('-' :: d :: dt).length := by
        simp [List.length_append, String.data]
      rw [hlen, take_append_left]
      rfl
    | false =>
      have harr : (sgn false ++ (d :: dt) ++ ("°C".data)) ++ r =
          d :: (dt ++ '°' :: 'C' :: r) := by
        simp [sgn, String.data]
      rw [harr]
      rw [matchPrimaryAt_cons_not_minus d _ hdm]
      have harr2 : d :: (dt ++ '°' :: 'C' :: r) = (d :: dt) ++ '°' :: 'C' :: r := rfl
      rw [harr2, matchPrimNum_nofrac (d :: dt) r hds hdig]
      have hsplit : sgn false ++ (d :: dt) ++ ("°C".data) =
          (d :: dt) ++ ("°C".data) := by simp [sgn]
      rw [hsplit]
      have hlen : ((d :: dt) ++ ("°C".data)).length - 2 = (d :: dt).length := by
        simp [List.length_append, String.data]
      rw [hlen, take_append_left]
  · cases m with
    | true =>
      have harr : (sgn true ++ (d :: dt) ++ '.' :: (fd ++ ("°C".data))) ++ r =
          '-' :: ((d :: dt) ++ '.' :: (fd ++ '°' :: 'C' :: r)) := by
        simp [sgn, String.data]
      rw [harr]
      show (matchPrimNum ((d :: dt) ++ '.' :: (fd ++ '°' :: 'C' :: r))).map
          (fun n => '-' :: n) = _
      rw [matchPrimNum_frac (d :: dt) fd r hds hdig hfd hfdig]
      have hsplit : sgn true ++ (d :: dt) ++ '.' :: (fd ++ ("°C".data)) =
          ('-' :: d :: dt ++ '.' :: fd) ++ ("°C".data) := by simp [sgn]
      rw [hsplit]
      have hlen : (('-' :: d :: dt ++ '.' :: fd) ++ ("°C".data)).length - 2 =
          ('-' :: d :: dt ++ '.' :: fd).length := by
        simp [List.length_append, String.data]
        omega
      rw [hlen, take_append_left]
      rfl
    | false =>
      have harr : (sgn false ++ (d :: dt) ++ '.' :: (fd ++ ("°C".data))) ++ r =
          d :: (dt ++ '.' :: (fd ++ '°' :: 'C' :: r)) := by
        simp [sgn, String.data]
      rw [harr]
      rw [matchPrimaryAt_cons_not_minus d _ hdm]
      have harr2 : d :: (dt ++ '.' :: (fd ++ '°' :: 'C' :: r)) =
          (d :: dt) ++ '.' :: (fd ++ '°' :: 'C' :: r) := rfl
      rw [harr2, matchPrimNum_frac (d :: dt) fd r hds hdig hfd hfdig]
      have hsplit : sgn false ++ (d :: dt) ++ '.' :: (fd ++ ("°C".data)) =
          ((d :: dt) ++ '.' :: fd) ++ ("°C".data) := by simp [sgn]
      rw [hsplit]
      have hlen : (((d :: dt) ++ '.' :: fd) ++ ("°C".data)).length - 2 =
          ((d :: dt) ++ '.' :: fd).length := by
        simp [List.length_append, String.data]
        omega
      rw [hlen, take_append_left]

theorem startsWithDeg_iff (l : Str) : startsWithDeg l = true ↔ ∃ r, l = '°' :: 'C' :: r := by
  rw [startsWithDeg, strStarts_iff]
  constructor
  · rintro ⟨r, rfl⟩; exact ⟨r, rfl⟩
  · rintro ⟨r, rfl⟩; exact ⟨r, rfl⟩

theorem shape_of_matchPrimNum (cs n : Str) (h : matchPrimNum cs = some n) :
    ∃ ds fd r, ds ≠ [] ∧ (∀ c ∈ ds, c.isDigit = true) ∧
      ((fd = [] ∧ cs = ds ++ '°' :: 'C' :: r) ∨
       (fd ≠ [] ∧ (∀ c ∈ fd, c.isDigit = true) ∧
         cs = ds ++ '.' :: (fd ++ '°' :: 'C' :: r))) := by
  simp only [matchPrimNum] at h
  by_cases hds : cs.takeWhile Char.isDigit = []
  · rw [if_pos hds] at h; exact absurd h (by simp)
  · rw [if_neg hds] at h
    have hcs := List.takeWhile_append_dropWhile Char.isDigit cs
    have hdig : ∀ c ∈ cs.takeWhile Char.isDigit, c.isDigit = true :=
      fun c hc => List.mem_takeWhile_imp hc
    split at h
    · next r2 heq =>
      by_cases hc1 : (decide (r2.takeWhile Char.isDigit ≠ []) &&
          startsWithDeg (r2.dropWhile Char.isDigit)) = true
      · rw [if_pos hc1] at h
        rcases Bool.and_eq_true_iff.mp hc1 with ⟨hfs, hsw⟩
        obtain ⟨r4, hr3⟩ := (startsWithDeg_iff _).mp hsw
        refine ⟨cs.takeWhile Char.isDigit, r2.takeWhile Char.isDigit, r4, hds, hdig,
          Or.inr ⟨by simpa using hfs, fun c hc => List.mem_takeWhile_imp hc, ?_⟩⟩
        have hr2 : r2 = r2.takeWhile Char.isDigit ++ ('°' :: 'C' :: r4) := by
          conv_lhs => rw [← List.takeWhile_append_dropWhile Char.isDigit r2]
          rw [hr3]
        conv_lhs => rw [← hcs, heq, hr2]
      · rw [if_neg hc1] at h
        rw [heq] at h
        have hsw2 : startsWithDeg ('.' :: r2) = false := by
          simp [startsWithDeg, strStarts]
        rw [hsw2] at h
        exact absurd h (by simp)
    · by_cases hsw : startsWithDeg (cs.dropWhile Char.isDigit) = true
      · obtain ⟨r4, hr⟩ := (startsWithDeg_iff _).mp hsw
        refine ⟨cs.takeWhile Char.isDigit, [], r4, hds, hdig, Or.inl ⟨rfl, ?_⟩⟩
        conv_lhs => rw [← hcs, hr]
      · rw [if_neg hsw] at h
        exact absurd h (by simp)

theorem shape_of_matchPrimaryAt (cs n : Str) (h : matchPrimaryAt cs = some n) :
    ∃ s r, cs = s ++ r ∧ TempShape s := by
  unfold matchPrimaryAt at h
  split at h
  · next t =>
    cases hm : matchPrimNum t with
    | none => rw [hm] at h; exact absurd h (by simp)
    | some n0 =>
      obtain ⟨ds, fd, r, hds, hdig, hcase⟩ := shape_of_matchPrimNum t n0 hm
      rcases hcase with ⟨hfd, ht⟩ | ⟨hfd, hfdig, ht⟩
      · exact ⟨sgn true ++ ds ++ ("°C".data), r, by simp [sgn, String.data, ht],
          ⟨true, ds, [], hds, hdig, Or.inl ⟨rfl, rfl⟩⟩⟩
      · exact ⟨sgn true ++ ds ++ '.' :: (fd ++ ("°C".data)), r,
          by simp [sgn, String.data, ht],
          ⟨true, ds, fd, hds, hdig, Or.inr ⟨hfd, hfdig, rfl⟩⟩⟩
  · next =>
    obtain ⟨ds, fd, r, hds, hdig, hcase⟩ := shape_of_matchPrimNum cs n h
    rcases hcase with ⟨hfd, ht⟩ | ⟨hfd, hfdig, ht⟩
    · exact ⟨sgn false ++ ds ++ ("°C".data), r, by simp [sgn, String.data, ht],
        ⟨false, ds, [], hds, hdig, Or.inl ⟨rfl, rfl⟩⟩⟩
    · exact ⟨sgn false ++ ds ++ '.' :: (fd ++ ("°C".data)), r,
        by simp [sgn, String.data, ht],
        ⟨false, ds, fd, hds, hdig, Or.inr ⟨hfd, hfdig, rfl⟩⟩⟩

theorem takeWhile_nil_of_none (p : Char → Bool) (l : Str)
    (h : ∀ c ∈ l, p c = false) : l.takeWhile p = [] := by
  cases l with
  | nil => rfl
  | cons a t => simp [List.takeWhile_cons, h a (by simp)]

theorem matchPrimNum_none_of_no_digit (cs : Str) (h : ∀ c ∈ cs, c.isDigit = false) :
    matchPrimNum cs = none := by
  simp only [matchPrimNum]
  rw [takeWhile_nil_of_none _ _ h]
  simp

theorem matchPrimaryAt_none_of_no_digit (cs : Str) (h : ∀ c ∈ cs, c.isDigit = false) :
    matchPrimaryAt cs = none := by
  unfold matchPrimaryAt
  split
  · next t =>
    rw [matchPrimNum_none_of_no_digit t (fun c hc => h c (List.mem_cons_of_mem _ hc))]
    rfl
  · exact matchPrimNum_none_of_no_digit _ h

theorem matchFallbackNum_none_of_no_digit (cs : Str) (h : ∀ c ∈ cs, c.isDigit = false) :
    matchFallbackNum cs = none := by
  simp only [matchFallbackNum]
  rw [takeWhile_nil_of_none _ _ h]
  simp

theorem matchFallbackAt_none_of_no_digit (cs : Str) (h : ∀ c ∈ cs, c.isDigit = false) :
    matchFallbackAt cs = none := by
  unfold matchFallbackAt
  split
  · next t =>
    rw [matchFallbackNum_none_of_no_digit t (fun c hc => h c (List.mem_cons_of_mem _ hc))]
    rfl
  · exact matchFallbackNum_none_of_no_digit _ h

/-- C1 (amended): (1) when the text has a °C-shaped substring, the
extractor returns the numeric value of the first one — the primary
pattern's leftmost match; (2) the extractor returns absence (and never
raises, being total) for text containing no digit at all.  (For text
with digits but no degree-shaped substring the fallback pattern fires
instead of returning absence; see the counterexample.) -/
theorem C1_temperature :
    (∀ (text s : Str) (i : ℕ), TempShape s → (∃ r, text.drop i = s ++ r) →
      (∀ (j : ℕ) (s2 : Str), j < i → TempShape s2 → ¬ ∃ r, text.drop j = s2 ++ r) →
      _extract_temperature text = some (numVal (s.take (s.length - 2)))) ∧
    (∀ text : Str, (∀ c ∈ text, c.isDigit = false) → _extract_temperature text = none) := by
  constructor
  · rintro text s i hs ⟨r, hr⟩ hfirst
    have hmatch : matchPrimaryAt (text.drop i) = some (s.take (s.length - 2)) := by
      rw [hr]; exact matchPrimaryAt_of_shape s r hs
    have hnone : ∀ j, j < i → matchPrimaryAt (text.drop j) = none := by
      intro j hj
      cases hmj : matchPrimaryAt (text.drop j) with
      | none => rfl
      | some m =>
        obtain ⟨s2, r2, heq, hs2⟩ := shape_of_matchPrimaryAt _ _ hmj
        exact absurd ⟨r2, heq⟩ (hfirst j s2 hj hs2)
    have hscan := scan_eq_some_of_first matchPrimaryAt text i _ hmatch hnone
    have htext : text ≠ [] := by
      intro hnil
      subst hnil
      simp only [List.drop_nil] at hr
      exact TempShape_ne_nil s hs (List.append_eq_nil.mp hr.symm).1
    unfold _extract_temperature
    rw [if_neg htext, hscan]
  · intro text h
    unfold _extract_temperature
    by_cases htext : text = []
    · rw [if_pos htext]
    · rw [if_neg htext]
      have h1 : scan matchPrimaryAt text = none :=
        (scan_eq_none_iff _ _).mpr (fun k => matchPrimaryAt_none_of_no_digit _
          (fun c hc => h c (List.drop_subset k text hc)))
      have h2 : scan matchFallbackAt text = none :=
        (scan_eq_none_iff _ _).mpr (fun k => matchFallbackAt_none_of_no_digit _
          (fun c hc => h c (List.drop_subset k text hc)))
      rw [h1, h2]

theorem C1_temperature_witness :
    _extract_temperature ("-12.5°C x".data) =
      some (numVal ((("-12.5°C".data)).take ((("-12.5°C".data)).length - 2))) ∧
    _extract_temperature ("abc".data) = none := by
  constructor
  · exact C1_temperature.1 ("-12.5°C x".data) ("-12.5°C".data) 0
      ⟨true, ("12".data), ("5".data), by decide, by decide,
        Or.inr ⟨by decide, by decide, by decide⟩⟩
      ⟨(" x".data), rfl⟩
      (fun j s2 hj _ => absurd hj (Nat.not_lt_zero j))
  · exact C1_temperature.2 ("abc".data) (by decide)

/-- C1: counterexample — the text `2000 m` contains no digit-plus-degree
substring at all (no `°` occurs in it), yet `_extract_temperature`
returns 2000 via the fallback pattern instead of absence. -/
theorem C1_counterexample :
    (¬ ∃ (i : ℕ) (s : Str), TempShape s ∧ ∃ r, (("2000 m".data)).drop i = s ++ r) ∧
    _extract_temperature ("2000 m".data) = some (numVal ("2000".data)) ∧
    numVal ("2000".data) = 2000 := by
  refine ⟨?_, rfl, ?_⟩
  · rintro ⟨i, s, hs, r, hr⟩
    have hdeg : '°' ∈ s := TempShape_deg_mem s hs
    have h1 : '°' ∈ (("2000 m".data)).drop i := by
      rw [hr]; exact List.mem_append.mpr (Or.inl hdeg)
    exact absurd (List.drop_subset i _ h1) (by decide)
  · show ((digitsVal (("2000".data).takeWhile Char.isDigit) : ℕ) : ℚ) = 2000
    rw [show ("2000".data).takeWhile Char.isDigit = ("2000".data) from by decide]
    rw [show digitsVal ("2000".data) = 2000 from by decide]
    norm_num

theorem pyWs_false_of_digit (c : Char) (h : c.isDigit = true) : pyWs c = false := by
  by_cases h1 : c = ' '
  · rw [h1] at h; exact absurd h (by decide)
  · by_cases h2 : c = '\t'
    · rw [h2] at h; exact absurd h (by decide)
    · by_cases h3 : c = '\n'
      · rw [h3] at h; exact absurd h (by decide)
      · by_cases h4 : c = '\r'
        · rw [h4] at h; exact absurd h (by decide)
        · simp [pyWs, h1, h2, h3, h4]

theorem pyStrip_eq_self (g : Str) (hhead : ∃ a t, g = a :: t ∧ pyWs a = false)
    (hlast : ∃ l b, g = l ++ [b] ∧ pyWs b = false) : pyStrip g = g := by
  obtain ⟨a, t, hg1, ha⟩ := hhead
  obtain ⟨l, b, hg2, hb⟩ := hlast
  unfold pyStrip
  have hd1 : g.dropWhile pyWs = g := by
    rw [hg1]
    exact List.dropWhile_cons_of_neg (by simp [ha])
  rw [hd1]
  have hd2 : g.reverse.dropWhile pyWs = g.reverse := by
    rw [hg2, List.reverse_append]
    simp only [List.reverse_singleton, List.singleton_append]
    rw [List.dropWhile_cons_of_neg (by simp [hb])]
  rw [hd2, List.reverse_reverse]

theorem matchD12sep_some (sep : Char) (cs p r : Str)
    (h : matchD12sep sep cs = some (p, r)) :
    ∃ a t, p = a :: t ∧ a.isDigit = true := by
  unfold matchD12sep at h
  split at h
  · next a b c r' =>
    split at h
    · next hcond =>
      have hpr := Option.some.inj h
      rw [Prod.mk.injEq] at hpr
      rcases Bool.and_eq_true_iff.mp hcond with ⟨hab, hc⟩
      rcases Bool.and_eq_true_iff.mp hab with ⟨hA, hB⟩
      exact ⟨a, [b, c], hpr.1.symm, hA⟩
    · split at h
      · next hcond =>
        have hpr := Option.some.inj h
        rw [Prod.mk.injEq] at hpr
        rcases Bool.and_eq_true_iff.mp hcond with ⟨hA, hB⟩
        exact ⟨a, [b], hpr.1.symm, hA⟩
      · exact absurd h (by simp)
  · next a b =>
    split at h
    · next hcond =>
      have hpr := Option.some.inj h
      rw [Prod.mk.injEq] at hpr
      rcases Bool.and_eq_true_iff.mp hcond with ⟨hA, hB⟩
      exact ⟨a, [b], hpr.1.symm, hA⟩
    · exact absurd h (by simp)
  · next => exact absurd h (by simp)

theorem matchDigits_some (k : ℕ) (cs p r : Str) (h : matchDigits k cs = some (p, r)) :
    p.length = k ∧ ∀ c ∈ p, c.isDigit = true := by
  simp only [matchDigits] at h
  split at h
  · next hcond =>
    have hpr := Option.some.inj h
    rw [Prod.mk.injEq] at hpr
    rcases Bool.and_eq_true_iff.mp hcond with ⟨hlen, hall⟩
    constructor
    · rw [← hpr.1]; exact of_decide_eq_true hlen
    · rw [← hpr.1]
      intro c hc
      exact List.all_eq_true.mp hall c hc
  · exact absurd h (by simp)

theorem matchDateAt_struct (cs g : Str) (h : matchDateAt cs = some g) :
    (∃ a t, g = a :: t ∧ a.isDigit = true) ∧
    (∃ l b, g = l ++ [b] ∧ b.isDigit = true) := by
  unfold matchDateAt at h
  cases h1 : matchD12sep '.' cs with
  | none => rw [h1] at h; exact absurd h (by simp)
  | some pr1 =>
    rw [h1] at h
    obtain ⟨p1, r1⟩ := pr1
    dsimp only at h
    cases h2 : matchD12sep '.' r1 with
    | none => rw [h2] at h; exact absurd h (by simp)
    | some pr2 =>
      rw [h2] at h
      obtain ⟨p2, r2⟩ := pr2
      dsimp only at h
      cases h3 : matchDigits 4 r2 with
      | none => rw [h3] at h; exact absurd h (by simp)
      | some pr3 =>
        rw [h3] at h
        obtain ⟨p3, r3⟩ := pr3
        dsimp only at h
        by_cases h4 : ((matchComma r3).2.takeWhile pyWs) = []
        · rw [if_pos h4] at h; exact absurd h (by simp)
        · rw [if_neg h4] at h
          cases h5 : matchD12sep ':' ((matchComma r3).2.dropWhile pyWs) with
          | none => rw [h5] at h; exact absurd h (by simp)
          | some pr4 =>
            rw [h5] at h
            obtain ⟨p4, r6⟩ := pr4
            dsimp only at h
            cases h6 : matchDigits 2 r6 with
            | none => rw [h6] at h; exact absurd h (by simp)
            | some pr5 =>
              rw [h6] at h
              obtain ⟨p5, r7⟩ := pr5
              dsimp only at h
              have hg := Option.some.inj h
              obtain ⟨a, t, hp1, ha⟩ := matchD12sep_some '.' cs p1 r1 h1
              obtain ⟨hlen5, hdig5⟩ := matchDigits_some 2 r6 p5 r7 h6
              constructor
              · refine ⟨a, t ++ p2 ++ p3 ++ (matchComma r3).1 ++
                  (matchComma r3).2.takeWhile pyWs ++ p4 ++ p5, ?_, ha⟩
                rw [← hg, hp1]
                simp [List.append_assoc]
              · obtain ⟨x, y, hp5⟩ : ∃ x y, p5 = [x, y] := by
                  cases p5 with
                  | nil => exact absurd hlen5 (by simp)
                  | cons x t5 =>
                    cases t5 with
                    | nil => exact absurd hlen5 (by simp)
                    | cons y t6 =>
                      cases t6 with
                      | nil => exact ⟨x, y, rfl⟩
                      | cons z t7 => exact absurd hlen5 (by simp)
                refine ⟨p1 ++ p2 ++ p3 ++ (matchComma r3).1 ++
                  (matchComma r3).2.takeWhile pyWs ++ p4 ++ [x], y, ?_, ?_⟩
                · rw [← hg, hp5]
                  simp [List.append_assoc]
                · exact hdig5 y (by simp [hp5])

theorem labeledAt_some (label cs d : Str) (h : labeledAt label cs = some d) :
    ∃ j, matchDateAt (cs.drop j) = some d := by
  unfold labeledAt at h
  by_cases hst : strStarts label cs = true
  · rw [if_pos hst] at h
    refine ⟨label.length + (((cs.drop label.length)).takeWhile pyWs).length, ?_⟩
    rw [← List.drop_drop]
    rw [← dropWhile_eq_drop pyWs (cs.drop label.length)]
    exact h
  · rw [if_neg hst] at h
    exact absurd h (by simp)

/-- C10: `_extract_update_time` is extensionally equal to the variant
that uses only the bare date pattern — a labelled occurrence always
contains a bare-pattern match, so the labelled patterns never
determine the result — and every returned timestamp starts with a
digit, hence never includes a label prefix. -/
theorem C10_update_time :
    (∀ text : Str, _extract_update_time text = extractUpdateTimeBareOnly text) ∧
    (∀ text d : Str, _extract_update_time text = some d →
      ∃ a t, d = a :: t ∧ a.isDigit = true) := by
  have hbare : ∀ text d : Str, _extract_update_time text = some d →
      ∃ g, (∃ j, matchDateAt (text.drop j) = some g) ∧ d = pyStrip g := by
    intro text d h
    unfold _extract_update_time at h
    by_cases htext : text = []
    · rw [if_pos htext] at h; exact absurd h (by simp)
    · rw [if_neg htext] at h
      cases h1 : scan matchDateAt text with
      | some g =>
        rw [h1] at h
        exact ⟨g, scan_eq_some_exists _ _ _ h1, (Option.some.inj h).symm⟩
      | none =>
        rw [h1] at h
        cases h2 : scan (labeledAt ("Updated on:".data)) text with
        | some g =>
          rw [h2] at h
          obtain ⟨k, hk⟩ := scan_eq_some_exists _ _ _ h2
          obtain ⟨j, hj⟩ := labeledAt_some _ _ _ hk
          rw [List.drop_drop] at hj
          exact ⟨g, ⟨_, hj⟩, (Option.some.inj h).symm⟩
        | none =>
          rw [h2] at h
          cases h3 : scan (labeledAt ("Aktualisiert am:".data)) text with
          | some g =>
            rw [h3] at h
            obtain ⟨k, hk⟩ := scan_eq_some_exists _ _ _ h3
            obtain ⟨j, hj⟩ := labeledAt_some _ _ _ hk
            rw [List.drop_drop] at hj
            exact ⟨g, ⟨_, hj⟩, (Option.some.inj h).symm⟩
          | none => rw [h3] at h; exact absurd h (by simp)
  constructor
  · intro text
    unfold _extract_update_time extractUpdateTimeBareOnly
    by_cases htext : text = []
    · rw [if_pos htext, if_pos htext]
    · rw [if_neg htext, if_neg htext]
      cases h1 : scan matchDateAt text with
      | some g => rfl
      | none =>
        have hnone := (scan_eq_none_iff matchDateAt text).mp h1
        have hlab : ∀ lab : Str, scan (labeledAt lab) text = none := by
          intro lab
          rw [scan_eq_none_iff]
          intro k
          cases hk : labeledAt lab (text.drop k) with
          | none => rfl
          | some g =>
            obtain ⟨j, hj⟩ := labeledAt_some _ _ _ hk
            rw [List.drop_drop] at hj
            rw [hnone (k + j)] at hj
            exact absurd hj (by simp)
        rw [hlab ("Updated on:".data), hlab ("Aktualisiert am:".data)]
        rfl
  · intro text d h
    obtain ⟨g, ⟨j, hj⟩, hd⟩ := hbare text d h
    obtain ⟨⟨a, t, hg1, ha⟩, ⟨l, b, hg2, hb⟩⟩ := matchDateAt_struct _ _ hj
    rw [hd, pyStrip_eq_self g ⟨a, t, hg1, pyWs_false_of_digit a ha⟩
      ⟨l, b, hg2, pyWs_false_of_digit b hb⟩]
    exact ⟨a, t, hg1, ha⟩

theorem C10_witness :
    _extract_update_time ("Updated on: 07.07.2025, 07:16".data) =
      extractUpdateTimeBareOnly ("Updated on: 07.07.2025, 07:16".data) ∧
    ∃ a t, ("07.07.2025, 07:16".data) = a :: t ∧ a.isDigit = true :=
  ⟨C10_update_time.1 ("Updated on: 07.07.2025, 07:16".data),
   C10_update_time.2 ("Updated on: 07.07.2025, 07:16".data)
     ("07.07.2025, 07:16".data) (by decide)⟩
